import Mathlib

/-!
Verification of the velocitas_lib utility module.

Python strings are modelled as lists of code points (`List Nat`); the
case-mapping functions are modelled on the ASCII range, the only range the
repository's inputs use. Environment access is modelled as a function from
variable names to optional values; `json.loads` is passed in as an abstract
decoder returning an `Except`. Machine behaviour of CPython primitives
(str.lower, str.capitalize, str.split, str.replace, slicing, os.path.join,
os.path.split, file line iteration) is embedded faithfully below.
-/

namespace Velocitas

/-- Code points of a Python string, modelled as a list of natural numbers. -/
abbrev PyStr := List Nat

/-- Code points of a Lean string literal, used to write concrete Python strings. -/
def codes (s : String) : PyStr := s.data.map Char.toNat

/-- Python str.lower on one code point (ASCII range). -/
def lowerCh (n : Nat) : Nat := if 65 ≤ n ∧ n ≤ 90 then n + 32 else n

/-- Python str.upper on one code point (ASCII range). -/
def upperCh (n : Nat) : Nat := if 97 ≤ n ∧ n ≤ 122 then n - 32 else n

/-- Python s.lower(). -/
def pyLower (s : PyStr) : PyStr := s.map lowerCh

/-- Python s.capitalize(): first code point upper-cased, the rest lower-cased. -/
def pyCapitalize : PyStr → PyStr
  | [] => []
  | c :: cs => upperCh c :: cs.map lowerCh

/-- Python s.split(sep) for a one-character separator sep: the empty string
splits into one empty segment, and n separators yield n+1 segments. -/
def pySplitChar (sep : Nat) : PyStr → List PyStr
  | [] => [[]]
  | c :: cs =>
    if c = sep then [] :: pySplitChar sep cs
    else
      match pySplitChar sep cs with
      | [] => [[c]]
      | l :: ls => (c :: l) :: ls

/-- Concatenation of a list of strings, Python "".join. -/
def joinList (ls : List PyStr) : PyStr := ls.foldr (· ++ ·) []

/-- velocitas_lib.to_camel_case: lower-case, split on hyphen (code 45),
capitalize each segment, concatenate. -/
def to_camel_case (snake_str : PyStr) : PyStr :=
  joinList ((pySplitChar 45 (pyLower snake_str)).map pyCapitalize)

/-- Python s[k:] slicing for an arbitrary integer k (negative indices count
from the end, out-of-range starts are clamped). -/
def pySliceFrom (s : PyStr) (k : Int) : PyStr :=
  let n : Int := s.length
  let start : Int := if k < 0 then max (n + k) 0 else min k n
  s.drop start.toNat

/-- velocitas_lib.create_truncated_string: the input unchanged when its
length is below the allowed length, otherwise an ellipsis followed by the
slice input[-length+3:]. -/
def create_truncated_string (input : PyStr) (length : Int) : PyStr :=
  if (input.length : Int) < length then input
  else codes "..." ++ pySliceFrom input (-length + 3)

/-- Python s.startswith(c) for one character. -/
def startsWithCh (c : Nat) (s : PyStr) : Bool :=
  match s with
  | [] => false
  | d :: _ => d = c

/-- Python s.endswith(c) for one character. -/
def endsWithCh (c : Nat) (s : PyStr) : Bool :=
  match s.getLast? with
  | none => false
  | some d => d = c

/-- Whitespace code points of Python str.strip (ASCII range). -/
def isSpaceCh (n : Nat) : Bool :=
  n = 32 || n = 9 || n = 10 || n = 13 || n = 11 || n = 12

/-- Python s.lstrip(). -/
def pyLstrip (s : PyStr) : PyStr := s.dropWhile isSpaceCh

/-- Python s.rstrip(). -/
def pyRstrip (s : PyStr) : PyStr := (s.reverse.dropWhile isSpaceCh).reverse

/-- Python s.strip(). -/
def pyStrip (s : PyStr) : PyStr := pyRstrip (pyLstrip s)

/-- Lines of a text file as Python file iteration yields them: split after
every newline (code 10), with each newline kept at the end of its line. -/
def splitLinesKeepEnds : PyStr → List PyStr
  | [] => []
  | c :: cs =>
    if c = 10 then [10] :: splitLinesKeepEnds cs
    else
      match splitLinesKeepEnds cs with
      | [] => [[c]]
      | l :: ls => (c :: l) :: ls

/-- Python s.replace(find, repl) for the empty find string: repl is inserted
before every character and once at the end. -/
def pyReplaceEmpty (repl : PyStr) : PyStr → PyStr
  | [] => repl
  | c :: cs => repl ++ c :: pyReplaceEmpty repl cs

/-- Python s.replace(find, repl) for a non-empty find string: a left-to-right
scan replacing non-overlapping occurrences; skip counts characters of a
matched occurrence still to be consumed without rescanning. -/
def pyReplaceAux (find repl : PyStr) : PyStr → Nat → PyStr
  | [], _ => []
  | _ :: cs, skip + 1 => pyReplaceAux find repl cs skip
  | c :: cs, 0 =>
    if find ≠ [] ∧ find.isPrefixOf (c :: cs) then
      repl ++ pyReplaceAux find repl cs (find.length - 1)
    else c :: pyReplaceAux find repl cs 0

/-- Python s.replace(find, repl) for a non-empty find string. -/
def pyReplaceGo (find repl s : PyStr) : PyStr := pyReplaceAux find repl s 0

/-- Python s.replace(find, repl). -/
def pyReplace (find repl s : PyStr) : PyStr :=
  if find = [] then pyReplaceEmpty repl s else pyReplaceGo find repl s

/-- velocitas_lib.replace_in_file modelled on the file content: the file is
read as lines, each line has every occurrence of the text replaced, and the
buffered lines are written back in order. -/
def replace_in_file (text replacement content : PyStr) : PyStr :=
  let buffer := (splitLinesKeepEnds content).map (pyReplace text replacement)
  buffer.foldl (· ++ ·) []

/-- Python substring membership, needle in hay. -/
def pyContains (needle : PyStr) : PyStr → Bool
  | [] => needle.isEmpty
  | c :: cs => needle.isPrefixOf (c :: cs) || pyContains needle cs

/-- Exceptions raised by the modelled functions, tagged with their message. -/
inductive PyErr
  | valueError (msg : PyStr)
  | typeError (msg : PyStr)
  | indexError (msg : PyStr)
  | jsonDecodeError (msg : PyStr)
  | fileNotFoundError (msg : PyStr)

/-- velocitas_lib.get_valid_arch: canonicalizes substring matches of known
architectures and raises ValueError otherwise. -/
def get_valid_arch (arch : PyStr) : Except PyErr PyStr :=
  if pyContains (codes "x86_64") arch || pyContains (codes "amd64") arch then
    .ok (codes "x86_64")
  else if pyContains (codes "aarch64") arch || pyContains (codes "arm64") arch then
    .ok (codes "aarch64")
  else
    .error (.valueError (codes "Unknown architecture: " ++ arch))

/-- Application of the optional map_fn of capture_textfile_area. -/
def applyMapFn (mapFn : Option (PyStr → PyStr)) (line : PyStr) : PyStr :=
  match mapFn with
  | none => line
  | some f => f line

/-- Loop of velocitas_lib.capture_textfile_area: cap is the is_capturing
flag, and captured lines are emitted in file order. -/
def captureGo (start_line end_line : PyStr) (mapFn : Option (PyStr → PyStr)) :
    List PyStr → Bool → List PyStr
  | [], _ => []
  | l :: ls, cap =>
    if pyStrip l = start_line then captureGo start_line end_line mapFn ls true
    else if pyStrip l = end_line then captureGo start_line end_line mapFn ls false
    else if cap then
      applyMapFn mapFn (pyRstrip l) :: captureGo start_line end_line mapFn ls cap
    else captureGo start_line end_line mapFn ls cap

/-- velocitas_lib.capture_textfile_area, with the file given as its list of
lines. -/
def capture_textfile_area (file : List PyStr) (start_line end_line : PyStr)
    (mapFn : Option (PyStr → PyStr)) : List PyStr :=
  captureGo start_line end_line mapFn file false

/-- One step of the spec's description of captureTextRegion: capture toggles
on at a line whose trimmed content equals the start marker, toggles off at a
line whose trimmed content equals the end marker; marker lines are never
appended; while capture is active the line is trailing-whitespace-trimmed,
transformed by the optional map function and appended. -/
def captureRegionStep (startMarker endMarker : PyStr)
    (mapFn : Option (PyStr → PyStr)) (st : Bool × List PyStr) (line : PyStr) :
    Bool × List PyStr :=
  if pyStrip line = startMarker then (true, st.2)
  else if pyStrip line = endMarker then (false, st.2)
  else if st.1 then (true, st.2 ++ [applyMapFn mapFn (pyRstrip line)])
  else st

/-- Modelled from the spec: captureTextRegion scans the lines in order with
capture initially off, applying captureRegionStep to each line, and returns
the accumulated lines; if the end marker never occurs the capture runs to the
end of the input. -/
def captureTextRegionSpec (lines : List PyStr) (startMarker endMarker : PyStr)
    (mapFn : Option (PyStr → PyStr)) : List PyStr :=
  (lines.foldl (captureRegionStep startMarker endMarker mapFn) (false, [])).2

/-- Process environment: maps a variable name to its value, none when the
variable is unset. -/
abbrev Env := PyStr → Option PyStr

/-- Message of the ValueError of require_env. -/
def msgNotSet (name : PyStr) : PyStr :=
  codes "Environment variable " ++ [39] ++ name ++ [39] ++ codes " not set!"

/-- velocitas_lib.require_env: raises ValueError when the variable is unset
or its value is falsy (the empty string), returns the value otherwise. -/
def require_env (env : Env) (name : PyStr) : Except PyErr PyStr :=
  match env name with
  | none => .error (.valueError (msgNotSet name))
  | some v => if v = [] then .error (.valueError (msgNotSet name)) else .ok v

/-- velocitas_lib.get_workspace_dir. -/
def get_workspace_dir (env : Env) : Except PyErr PyStr :=
  require_env env (codes "VELOCITAS_WORKSPACE_DIR")

/-- velocitas_lib.get_package_path. -/
def get_package_path (env : Env) : Except PyErr PyStr :=
  require_env env (codes "VELOCITAS_PACKAGE_DIR")

/-- velocitas_lib.get_project_cache_dir. -/
def get_project_cache_dir (env : Env) : Except PyErr PyStr :=
  require_env env (codes "VELOCITAS_CACHE_DIR")

/-- velocitas_lib.get_programming_language. -/
def get_programming_language (env : Env) : Except PyErr PyStr :=
  require_env env (codes "language")

/-- Decoded JSON values. -/
inductive JVal
  | obj (fields : List (PyStr × JVal))
  | arr (elems : List JVal)
  | str (s : PyStr)
  | num (n : Int)
  | boolean (b : Bool)
  | null

/-- velocitas_lib.get_app_manifest: json.loads is passed in as an abstract
decoder (a decode failure is an exception that propagates). A decoded dict
is returned as is; for a decoded list, manifest_data[0] is evaluated first —
on the empty list that subscript raises IndexError — and is returned when it
is a dict; every other decoded value raises TypeError. -/
def get_app_manifest (env : Env) (jsonLoads : PyStr → Except PyErr JVal) :
    Except PyErr JVal :=
  match require_env env (codes "VELOCITAS_APP_MANIFEST") with
  | .error e => .error e
  | .ok raw =>
    match jsonLoads raw with
    | .error e => .error e
    | .ok (.obj fields) => .ok (.obj fields)
    | .ok (.arr []) => .error (.indexError (codes "list index out of range"))
    | .ok (.arr (JVal.obj fields :: _)) => .ok (.obj fields)
    | .ok _ => .error (.typeError (codes "Manifest must be a dict or array!"))

/-- posixpath.join for two components: an absolute second component replaces
the path, otherwise the separator is inserted unless the path is empty or
already ends with the separator. -/
def pyJoin2 (a b : PyStr) : PyStr :=
  if startsWithCh 47 b then b
  else if a = [] || endsWithCh 47 a then a ++ b
  else a ++ 47 :: b

/-- velocitas_lib.get_log_file_name: os.path.join of the workspace directory,
"logs", the runtime id and the service id with a ".log" suffix. -/
def get_log_file_name (env : Env) (service_id runtime_id : PyStr) :
    Except PyErr PyStr :=
  match get_workspace_dir env with
  | .error e => .error e
  | .ok ws =>
    .ok (pyJoin2 (pyJoin2 (pyJoin2 ws (codes "logs")) runtime_id)
      (service_id ++ codes ".log"))

/-- Index one past the last separator (code 47) of a path, 0 when the path
has none: the split point of posixpath.split. -/
def lastSepIdx : PyStr → Nat
  | [] => 0
  | c :: cs =>
    match lastSepIdx cs with
    | 0 => if c = 47 then 1 else 0
    | r + 1 => r + 2

/-- posixpath.split: head is everything up to the last separator with
trailing separators stripped unless the head is all separators, tail is
everything after the last separator. -/
def pathSplit (p : PyStr) : PyStr × PyStr :=
  let i := lastSepIdx p
  let head := p.take i
  let tail := p.drop i
  if head ≠ [] ∧ ¬(head.all (· = 47)) then
    ((head.reverse.dropWhile (· = 47)).reverse, tail)
  else (head, tail)

/-- Chunks of requests iter_content with chunk_size 8192: successive blocks
of at most 8192 bytes of the response body. -/
def iterContent (body : PyStr) : List PyStr :=
  if body = [] then [] else body.take 8192 :: iterContent (body.drop 8192)
termination_by body.length
decreasing_by
  simp only [List.length_drop]
  have : body.length ≠ 0 := by
    simpa [List.length_eq_zero] using (by assumption : ¬body = [])
  omega

/-- velocitas_lib.download_file on a successful response, with the response
body given as its byte sequence: os.makedirs is applied to the directory part
of the local path (on the empty string it raises FileNotFoundError before
anything is written; for a non-empty directory the creation is assumed to
succeed), and the written file is the concatenation of the streamed chunks. -/
def download_file (body : PyStr) (local_file_path : PyStr) :
    Except PyErr PyStr :=
  let dir := (pathSplit local_file_path).1
  if dir = [] then .error (.fileNotFoundError dir)
  else .ok ((iterContent body).foldl (· ++ ·) [])

/-- Concrete capture example: lines as file iteration yields them for the
text a, START, b, c, END, d. -/
def exCaptureLines : List PyStr :=
  [codes "a\n", codes "START\n", codes "b\n", codes "c\n", codes "END\n", codes "d"]

/-- Concrete capture example without a terminating END marker. -/
def exCaptureLinesOpen : List PyStr :=
  [codes "a\n", codes "START\n", codes "b\n", codes "c\n", codes "d"]

/-- Concrete environment holding only the workspace directory /ws. -/
def envWs : Env :=
  fun n => if n = codes "VELOCITAS_WORKSPACE_DIR" then some (codes "/ws") else none

/-- Concrete environment holding only the app manifest variable, set to raw. -/
def envOf (raw : PyStr) : Env :=
  fun n => if n = codes "VELOCITAS_APP_MANIFEST" then some raw else none

/-- Concrete JSON decoder decoding raw to v and failing on everything else. -/
def loadsOf (raw : PyStr) (v : JVal) : PyStr → Except PyErr JVal :=
  fun r => if r = raw then .ok v else .error (.jsonDecodeError [])

/-- Decoded manifest shapes on which get_app_manifest raises TypeError: not
a dict, not the empty array (that one raises IndexError), and not an array
headed by a dict. -/
def manifestTypeErrorShape : JVal → Bool
  | .obj _ => false
  | .arr [] => false
  | .arr (.obj _ :: _) => false
  | _ => true

/-! Shared helper lemmas. -/

theorem joinList_nil : joinList [] = [] := rfl

theorem joinList_cons (l : PyStr) (ls : List PyStr) :
    joinList (l :: ls) = l ++ joinList ls := rfl

theorem foldl_append_eq_join (ls : List PyStr) :
    ∀ a : PyStr, ls.foldl (· ++ ·) a = a ++ joinList ls := by
  induction ls with
  | nil => intro a; simp [joinList]
  | cons l ls ih =>
    intro a
    simp only [List.foldl_cons, ih, joinList_cons, List.append_assoc]

theorem isPrefixOf_eq_true_iff (nd l : PyStr) :
    nd.isPrefixOf l = true ↔ ∃ t, l = nd ++ t := by
  rw [List.isPrefixOf_iff_prefix]
  constructor
  · rintro ⟨t, rfl⟩
    exact ⟨t, rfl⟩
  · rintro ⟨t, rfl⟩
    exact ⟨t, rfl⟩

theorem pyContains_eq_true_iff (needle hay : PyStr) :
    pyContains needle hay = true ↔ ∃ p q, hay = p ++ needle ++ q := by
  induction hay with
  | nil =>
    simp only [pyContains, List.isEmpty_iff]
    constructor
    · intro h
      exact ⟨[], [], by simp [h]⟩
    · rintro ⟨p, q, hpq⟩
      rcases List.append_eq_nil.mp hpq.symm with ⟨h1, h2⟩
      rcases List.append_eq_nil.mp h1 with ⟨-, h3⟩
      exact h3
  | cons c cs ih =>
    simp only [pyContains, Bool.or_eq_true, ih, isPrefixOf_eq_true_iff]
    constructor
    · rintro (⟨t, ht⟩ | ⟨p, q, hp⟩)
      · exact ⟨[], t, by simpa using ht⟩
      · exact ⟨c :: p, q, by simp [hp]⟩
    · rintro ⟨p, q, hpq⟩
      cases p with
      | nil => exact Or.inl ⟨q, by simpa using hpq⟩
      | cons d p =>
        rw [List.cons_append, List.cons_append] at hpq
        rcases List.cons.injEq .. ▸ hpq with ⟨-, h2⟩
        exact Or.inr ⟨p, q, h2⟩

/-- Claim C3, amended with the bound 3 < length that the counterexample at
length = 3 forces: for strings shorter than the allowed length the input is
returned unchanged; for an allowed length above 3 and a longer input, the
output has exactly the allowed length and is the ellipsis marker followed by
the rightmost length - 3 characters of the input, so it ends with the same
suffix as the input. -/
theorem create_truncated_string_contract (s : PyStr) (len : Int) :
    ((s.length : Int) < len → create_truncated_string s len = s) ∧
    (3 < len → len < (s.length : Int) →
      ((create_truncated_string s len).length : Int) = len ∧
      create_truncated_string s len =
        codes "..." ++ s.drop (s.length - (len.toNat - 3))) := by
  constructor
  · intro h
    simp [create_truncated_string, h]
  · intro h3 hlen
    have hnot : ¬((s.length : Int) < len) := by omega
    simp only [create_truncated_string, if_neg hnot, pySliceFrom]
    have harg :
        (if (-len + 3 : Int) < 0 then max ((s.length : Int) + (-len + 3)) 0
          else min (-len + 3) (s.length : Int)).toNat
          = s.length - (len.toNat - 3) := by
      rw [if_pos (by omega : (-len + 3 : Int) < 0)]
      rw [max_eq_left (by omega : (0 : Int) ≤ (s.length : Int) + (-len + 3))]
      omega
    rw [harg]
    refine ⟨?_, rfl⟩
    have hdots : (codes "...").length = 3 := rfl
    simp only [List.length_append, List.length_drop, hdots]
    omega

/-- Claim C3, counterexample: at length 3 the input "abcde" is longer than
the allowed length, yet the output is the ellipsis followed by the whole
input, of length 8 rather than 3. -/
theorem create_truncated_string_length_three_cex :
    create_truncated_string (codes "abcde") 3 = codes "...abcde" ∧
    (create_truncated_string (codes "abcde") 3).length = 8 ∧
    (codes "abcde").length = 5 := by
  refine ⟨by decide, by decide, by decide⟩

/-- Claim C4: for length 3 and an input of at least 3 characters, the slice
input[-length+3:] is the whole input, so the output is the ellipsis followed
by the entire input and has length len(input) + 3; and for every length at
most 3 with len(input) at least the length, the output is strictly longer
than the length. -/
theorem create_truncated_string_small_length (s : PyStr) (len : Int) :
    (3 ≤ s.length →
      create_truncated_string s 3 = codes "..." ++ s ∧
      (create_truncated_string s 3).length = s.length + 3) ∧
    (len ≤ 3 → len ≤ (s.length : Int) →
      len < ((create_truncated_string s len).length : Int)) := by
  constructor
  · intro h
    have hnot : ¬((s.length : Int) < 3) := by omega
    have he : create_truncated_string s 3 = codes "..." ++ s := by
      simp only [create_truncated_string, if_neg hnot, pySliceFrom]
      have : (if (-3 + 3 : Int) < 0 then max ((s.length : Int) + (-3 + 3)) 0
          else min (-3 + 3) (s.length : Int)).toNat = 0 := by
        norm_num
      rw [this, List.drop_zero]
    refine ⟨he, ?_⟩
    rw [he]
    have hdots : (codes "...").length = 3 := rfl
    simp only [List.length_append, hdots]
    omega
  · intro hle hlen
    by_cases hc : (s.length : Int) < len
    · omega
    · simp only [create_truncated_string, if_neg hc, pySliceFrom]
      have hdots : (codes "...").length = 3 := rfl
      simp only [List.length_append, List.length_drop, hdots]
      have hneg : ¬((-len + 3 : Int) < 0) := by omega
      rw [if_neg hneg]
      rcases le_total (-len + 3 : Int) (s.length : Int) with hm | hm
      · rw [min_eq_left hm]
        omega
      · rw [min_eq_right hm]
        omega

/-- Claim C6: any architecture string containing "x86_64" or "amd64" is
mapped to "x86_64"; otherwise one containing "aarch64" or "arm64" is mapped
to "aarch64"; otherwise get_valid_arch raises ValueError (the unrecognized
architecture error). Containment is Python substring membership, shown
equivalent to the existence of a decomposition hay = p ++ needle ++ q; the
three concrete cases of the spec are included. -/
theorem get_valid_arch_contract (arch : PyStr) :
    (∀ needle : PyStr, pyContains needle arch = true ↔ ∃ p q, arch = p ++ needle ++ q) ∧
    (pyContains (codes "x86_64") arch = true ∨ pyContains (codes "amd64") arch = true →
      get_valid_arch arch = .ok (codes "x86_64")) ∧
    (pyContains (codes "x86_64") arch = false → pyContains (codes "amd64") arch = false →
      pyContains (codes "aarch64") arch = true ∨ pyContains (codes "arm64") arch = true →
      get_valid_arch arch = .ok (codes "aarch64")) ∧
    (pyContains (codes "x86_64") arch = false → pyContains (codes "amd64") arch = false →
      pyContains (codes "aarch64") arch = false → pyContains (codes "arm64") arch = false →
      get_valid_arch arch = .error (.valueError (codes "Unknown architecture: " ++ arch))) ∧
    get_valid_arch (codes "amd64") = .ok (codes "x86_64") ∧
    get_valid_arch (codes "arm64v8") = .ok (codes "aarch64") ∧
    get_valid_arch (codes "mips") = .error (.valueError (codes "Unknown architecture: mips")) := by
  refine ⟨fun needle => pyContains_eq_true_iff needle arch, ?_, ?_, ?_, rfl, rfl, rfl⟩
  · rintro (h | h) <;> simp [get_valid_arch, h]
  · intro h1 h2 h3
    rcases h3 with h | h <;> simp [get_valid_arch, h1, h2, h]
  · intro h1 h2 h3 h4
    simp [get_valid_arch, h1, h2, h3, h4]

/-- Claim C7: require_env fails with the configuration ValueError exactly
when the variable is unset or set to the empty string, and otherwise returns
the exact value; the named wrappers are require_env at their fixed variable
names, so they share the same contract. -/
theorem require_env_contract (env : Env) (name : PyStr) :
    (env name = none → require_env env name = .error (.valueError (msgNotSet name))) ∧
    (env name = some [] → require_env env name = .error (.valueError (msgNotSet name))) ∧
    (∀ v, env name = some v → v ≠ [] → require_env env name = .ok v) ∧
    (∀ e, require_env env name = .error e → env name = none ∨ env name = some []) ∧
    (∀ v, require_env env name = .ok v → env name = some v) ∧
    get_workspace_dir env = require_env env (codes "VELOCITAS_WORKSPACE_DIR") ∧
    get_package_path env = require_env env (codes "VELOCITAS_PACKAGE_DIR") ∧
    get_project_cache_dir env = require_env env (codes "VELOCITAS_CACHE_DIR") ∧
    get_programming_language env = require_env env (codes "language") := by
  refine ⟨?_, ?_, ?_, ?_, ?_, rfl, rfl, rfl, rfl⟩
  · intro h
    simp [require_env, h]
  · intro h
    simp [require_env, h]
  · intro v hv hne
    simp [require_env, hv, hne]
  · intro e he
    cases henv : env name with
    | none => exact Or.inl rfl
    | some v =>
      by_cases hv : v = []
      · exact Or.inr (by rw [hv])
      · simp [require_env, henv, hv] at he
  · intro v hv
    cases henv : env name with
    | none => simp [require_env, henv] at hv
    | some w =>
      by_cases hw : w = []
      · simp [require_env, henv, hw] at hv
      · simp only [require_env, henv, if_neg hw, Except.ok.injEq] at hv
        rw [hv]

theorem startsWithCh_eq_true_iff (c : Nat) (s : PyStr) :
    startsWithCh c s = true ↔ s.head? = some c := by
  cases s <;> simp [startsWithCh]

theorem endsWithCh_eq_true_iff (c : Nat) (s : PyStr) :
    endsWithCh c s = true ↔ s.getLast? = some c := by
  unfold endsWithCh
  cases h : s.getLast? <;> simp

theorem pyJoin2_sep (a b : PyStr) (hb : startsWithCh 47 b = false)
    (ha : ¬a = []) (he : endsWithCh 47 a = false) :
    pyJoin2 a b = a ++ 47 :: b := by
  unfold pyJoin2
  rw [hb, he]
  simp [ha]

theorem foldl_captureRegionStep (startM endM : PyStr) (mapFn : Option (PyStr → PyStr)) :
    ∀ (lines : List PyStr) (cap : Bool) (acc : List PyStr),
      (lines.foldl (captureRegionStep startM endM mapFn) (cap, acc)).2
        = acc ++ captureGo startM endM mapFn lines cap := by
  intro lines
  induction lines with
  | nil =>
    intro cap acc
    simp [captureGo]
  | cons l ls ih =>
    intro cap acc
    simp only [List.foldl_cons, captureRegionStep, captureGo]
    by_cases h1 : pyStrip l = startM
    · rw [if_pos h1, if_pos h1]
      exact ih true acc
    · rw [if_neg h1, if_neg h1]
      by_cases h2 : pyStrip l = endM
      · rw [if_pos h2, if_pos h2]
        exact ih false acc
      · rw [if_neg h2, if_neg h2]
        cases cap with
        | false => simpa using ih false acc
        | true =>
          simp only [if_true]
          rw [ih true (acc ++ [applyMapFn mapFn (pyRstrip l)])]
          simp [List.append_assoc]

/-- Claim C5: capture_textfile_area equals the spec's region-capture state
machine — capture toggles on at a line whose trimmed content equals the
start marker, off at one equal to the end marker, marker lines are never
appended, captured lines are trailing-whitespace-trimmed, transformed by the
optional map function and appended in order, and an unterminated region runs
to the end of input — and on the concrete example lines a, START, b, c, END,
d it yields exactly b and c, while without the END line it captures to the
end of input. -/
theorem capture_textfile_area_contract (lines : List PyStr) (startM endM : PyStr)
    (mapFn : Option (PyStr → PyStr)) :
    capture_textfile_area lines startM endM mapFn
      = captureTextRegionSpec lines startM endM mapFn ∧
    capture_textfile_area exCaptureLines (codes "START") (codes "END") none
      = [codes "b", codes "c"] ∧
    capture_textfile_area exCaptureLinesOpen (codes "START") (codes "END") none
      = [codes "b", codes "c", codes "d"] := by
  refine ⟨?_, by decide, by decide⟩
  rw [capture_textfile_area, captureTextRegionSpec, foldl_captureRegionStep]
  simp

/-- Claim C8, amended with the separator side conditions that the
counterexample forces: when the workspace variable holds a non-empty value
not ending in a separator, and the runtime id is non-empty and neither
starts nor ends with a separator, and the service id does not start with a
separator, get_log_file_name returns workspaceDir/logs/runtimeId/serviceId.log;
in particular with workspace dir /ws it returns /ws/logs/rt/svc.log. -/
theorem get_log_file_name_contract (env : Env) (ws service_id runtime_id : PyStr) :
    (env (codes "VELOCITAS_WORKSPACE_DIR") = some ws → ws ≠ [] →
      ws.getLast? ≠ some 47 → runtime_id ≠ [] → runtime_id.head? ≠ some 47 →
      runtime_id.getLast? ≠ some 47 → service_id.head? ≠ some 47 →
      get_log_file_name env service_id runtime_id =
        .ok (ws ++ codes "/logs/" ++ runtime_id ++ codes "/" ++ service_id ++ codes ".log")) ∧
    get_log_file_name envWs (codes "svc") (codes "rt") = .ok (codes "/ws/logs/rt/svc.log") := by
  refine ⟨?_, rfl⟩
  intro henv hne hlast hrne hrhead hrlast hshead
  have s1 : startsWithCh 47 (codes "logs") = false := by decide
  have e1 : endsWithCh 47 ws = false := by
    cases hb : endsWithCh 47 ws
    · rfl
    · exact absurd ((endsWithCh_eq_true_iff 47 ws).mp hb) hlast
  have h1 : pyJoin2 ws (codes "logs") = ws ++ 47 :: codes "logs" :=
    pyJoin2_sep ws (codes "logs") s1 hne e1
  have s2 : startsWithCh 47 runtime_id = false := by
    cases hb : startsWithCh 47 runtime_id
    · rfl
    · exact absurd ((startsWithCh_eq_true_iff 47 runtime_id).mp hb) hrhead
  have e2 : endsWithCh 47 (ws ++ 47 :: codes "logs") = false := by
    cases hb : endsWithCh 47 (ws ++ 47 :: codes "logs")
    · rfl
    · have hg := (endsWithCh_eq_true_iff 47 _).mp hb
      rw [List.getLast?_append_cons] at hg
      exact absurd hg (by decide)
  have h2 : pyJoin2 (ws ++ 47 :: codes "logs") runtime_id
      = (ws ++ 47 :: codes "logs") ++ 47 :: runtime_id :=
    pyJoin2_sep _ runtime_id s2 (by simp) e2
  have s3 : startsWithCh 47 (service_id ++ codes ".log") = false := by
    cases service_id with
    | nil => decide
    | cons c cs =>
      cases hb : startsWithCh 47 ((c :: cs) ++ codes ".log")
      · rfl
      · have hh := (startsWithCh_eq_true_iff 47 _).mp hb
        rw [List.cons_append] at hh
        simp only [List.head?_cons, Option.some.injEq] at hh
        exact absurd (by simp [hh] : (c :: cs : PyStr).head? = some 47) hshead
  have e3 : endsWithCh 47 ((ws ++ 47 :: codes "logs") ++ 47 :: runtime_id) = false := by
    cases hb : endsWithCh 47 ((ws ++ 47 :: codes "logs") ++ 47 :: runtime_id)
    · rfl
    · have hg := (endsWithCh_eq_true_iff 47 _).mp hb
      rw [List.getLast?_append_cons] at hg
      cases runtime_id with
      | nil => exact absurd rfl hrne
      | cons d ds =>
        rw [List.getLast?_cons_cons] at hg
        exact absurd hg hrlast
  have h3 : pyJoin2 ((ws ++ 47 :: codes "logs") ++ 47 :: runtime_id) (service_id ++ codes ".log")
      = ((ws ++ 47 :: codes "logs") ++ 47 :: runtime_id) ++ 47 :: (service_id ++ codes ".log") :=
    pyJoin2_sep _ _ s3 (by simp) e3
  simp only [get_log_file_name, get_workspace_dir, require_env, henv, if_neg hne, h1, h2, h3]
  have c1 : codes "/logs/" = 47 :: (codes "logs" ++ [47]) := by decide
  have c2 : codes "/" = [47] := by decide
  rw [c1, c2]
  simp [List.append_assoc]

/-- Claim C8, counterexample: with workspace dir /ws, a runtime id starting
with the path separator makes os.path.join discard everything before it, so
the result is /x/svc.log and not the claimed /ws/logs//x/svc.log. -/
theorem get_log_file_name_absolute_runtime_cex :
    get_log_file_name envWs (codes "svc") (codes "/x") = .ok (codes "/x/svc.log") ∧
    codes "/x/svc.log" ≠ codes "/ws/logs//x/svc.log" := by
  exact ⟨rfl, by decide⟩

theorem lowerCh_idem (n : Nat) : lowerCh (lowerCh n) = lowerCh n := by
  unfold lowerCh
  split_ifs <;> omega

theorem upperCh_lowerCh_upperCh (n : Nat) : upperCh (lowerCh (upperCh n)) = upperCh n := by
  unfold upperCh lowerCh
  split_ifs <;> omega

theorem lowerCh_eq_hyphen (n : Nat) (h : lowerCh n = 45) : n = 45 := by
  unfold lowerCh at h
  split_ifs at h <;> omega

theorem upperCh_eq_hyphen (n : Nat) (h : upperCh n = 45) : n = 45 := by
  unfold upperCh at h
  split_ifs at h <;> omega

theorem map_lowerCh_idem (l : PyStr) : (l.map lowerCh).map lowerCh = l.map lowerCh := by
  induction l <;> simp_all [lowerCh_idem]

theorem pyCapitalize_pyLower_pyCapitalize (x : PyStr) :
    pyCapitalize (pyLower (pyCapitalize x)) = pyCapitalize x := by
  cases x with
  | nil => rfl
  | cons b bs =>
    simp only [pyCapitalize, pyLower, List.map_cons, upperCh_lowerCh_upperCh]
    rw [map_lowerCh_idem, map_lowerCh_idem]

theorem mem_pySplitChar_not_mem (sep : Nat) (s : PyStr) :
    ∀ l ∈ pySplitChar sep s, sep ∉ l := by
  induction s with
  | nil =>
    intro l hl
    simp only [pySplitChar, List.mem_singleton] at hl
    simp [hl]
  | cons c cs ih =>
    intro l hl
    by_cases hc : c = sep
    · rw [pySplitChar, if_pos hc] at hl
      rcases List.mem_cons.mp hl with rfl | hl
      · simp
      · exact ih l hl
    · rw [pySplitChar, if_neg hc] at hl
      cases hsp : pySplitChar sep cs with
      | nil =>
        rw [hsp] at hl
        rcases List.mem_singleton.mp hl with rfl
        intro hm
        exact hc (List.mem_singleton.mp hm).symm
      | cons m ms =>
        rw [hsp] at hl
        rcases List.mem_cons.mp hl with rfl | hl
        · intro hmem
          rcases List.mem_cons.mp hmem with he | hm
          · exact hc he.symm
          · exact ih m (hsp ▸ List.mem_cons_self m ms) hm
        · exact ih l (hsp ▸ List.mem_cons_of_mem m hl)

theorem pySplitChar_of_not_mem (sep : Nat) (t : PyStr) (h : sep ∉ t) :
    pySplitChar sep t = [t] := by
  induction t with
  | nil => rfl
  | cons c cs ih =>
    have hc : ¬(c = sep) := by
      intro e
      exact h (by simp [e])
    have hcs : sep ∉ cs := fun m => h (List.mem_cons_of_mem _ m)
    rw [pySplitChar, if_neg hc, ih hcs]

theorem mem_joinList (a : Nat) (ls : List PyStr) : a ∈ joinList ls ↔ ∃ l ∈ ls, a ∈ l := by
  induction ls with
  | nil => simp [joinList]
  | cons l ls ih => simp [joinList_cons, List.mem_append, ih]

theorem hyphen_not_mem_to_camel_case (s : PyStr) : (45 : Nat) ∉ to_camel_case s := by
  intro hmem
  rw [to_camel_case] at hmem
  rcases (mem_joinList 45 _).mp hmem with ⟨l, hl, hal⟩
  rcases List.mem_map.mp hl with ⟨seg, hseg, rfl⟩
  have hseg45 : (45 : Nat) ∉ seg := mem_pySplitChar_not_mem 45 (pyLower s) seg hseg
  cases seg with
  | nil => simp [pyCapitalize] at hal
  | cons c cs =>
    simp only [pyCapitalize, List.mem_cons] at hal
    rcases hal with h | h
    · exact hseg45 (by simp [upperCh_eq_hyphen c h.symm])
    · rcases List.mem_map.mp h with ⟨d, hd, hdl⟩
      exact hseg45 (List.mem_cons_of_mem _ (lowerCh_eq_hyphen d hdl ▸ hd))

theorem to_camel_case_of_not_mem (t : PyStr) (h : (45 : Nat) ∉ t) :
    to_camel_case t = pyCapitalize (pyLower t) := by
  have hlow : (45 : Nat) ∉ pyLower t := by
    intro hm
    rcases List.mem_map.mp hm with ⟨d, hd, hdl⟩
    exact h (lowerCh_eq_hyphen d hdl ▸ hd)
  rw [to_camel_case, pySplitChar_of_not_mem 45 _ hlow]
  simp [joinList]

/-- Claim C2, amended as the counterexample forces: to_camel_case is not
idempotent on all of its delimiter-free outputs (capitalize lower-cases the
tail, collapsing interior capitals), but a second application reaches a fixed
point: for every input s, to_camel_case applied to
to_camel_case (to_camel_case s) is a no-op. -/
theorem to_camel_case_double_idempotent (s : PyStr) :
    to_camel_case (to_camel_case (to_camel_case s))
      = to_camel_case (to_camel_case s) := by
  have h1 := hyphen_not_mem_to_camel_case s
  have h2 := hyphen_not_mem_to_camel_case (to_camel_case s)
  rw [to_camel_case_of_not_mem _ h2, to_camel_case_of_not_mem _ h1,
    pyCapitalize_pyLower_pyCapitalize]

/-- Claim C2, counterexample: the output FooBar of to_camel_case on foo-bar
contains no hyphen, yet applying to_camel_case to it yields Foobar, not
FooBar, so to_camel_case is not idempotent on its own delimiter-free
output. -/
theorem to_camel_case_not_idempotent_cex :
    pyContains [45] (to_camel_case (codes "foo-bar")) = false ∧
    to_camel_case (codes "foo-bar") = codes "FooBar" ∧
    to_camel_case (to_camel_case (codes "foo-bar")) = codes "Foobar" ∧
    codes "Foobar" ≠ codes "FooBar" :=
  ⟨by decide, by decide, by decide, by decide⟩

theorem get_app_manifest_ok_loads (env : Env) (jsonLoads : PyStr → Except PyErr JVal)
    (raw : PyStr) (henv : env (codes "VELOCITAS_APP_MANIFEST") = some raw)
    (hraw : raw ≠ []) :
    get_app_manifest env jsonLoads =
      match jsonLoads raw with
      | .error e => .error e
      | .ok (.obj fields) => .ok (.obj fields)
      | .ok (.arr []) => .error (.indexError (codes "list index out of range"))
      | .ok (.arr (JVal.obj fields :: _)) => .ok (.obj fields)
      | .ok _ => .error (.typeError (codes "Manifest must be a dict or array!")) := by
  simp [get_app_manifest, require_env, henv, hraw]

/-- Claim C1, amended as the counterexample forces: get_app_manifest decodes
the required JSON environment variable; a decoded object is returned
unchanged; a decoded array whose first element is an object yields that
first element; the empty array fails with IndexError (the subscript
manifest_data[0] is evaluated before any type check), not with the claimed
TypeMismatchError; every other decoded value, including the string x, fails
with TypeError; and a decode failure propagates as the decode error. -/
theorem get_app_manifest_contract (env : Env) (jsonLoads : PyStr → Except PyErr JVal)
    (raw : PyStr) :
    (env (codes "VELOCITAS_APP_MANIFEST") = some raw → raw ≠ [] →
      ∀ fields, jsonLoads raw = .ok (.obj fields) →
        get_app_manifest env jsonLoads = .ok (.obj fields)) ∧
    (env (codes "VELOCITAS_APP_MANIFEST") = some raw → raw ≠ [] →
      ∀ fields rest, jsonLoads raw = .ok (.arr (JVal.obj fields :: rest)) →
        get_app_manifest env jsonLoads = .ok (.obj fields)) ∧
    (env (codes "VELOCITAS_APP_MANIFEST") = some raw → raw ≠ [] →
      jsonLoads raw = .ok (.arr []) →
        get_app_manifest env jsonLoads
          = .error (.indexError (codes "list index out of range"))) ∧
    (env (codes "VELOCITAS_APP_MANIFEST") = some raw → raw ≠ [] →
      ∀ v, jsonLoads raw = .ok v → manifestTypeErrorShape v = true →
        get_app_manifest env jsonLoads
          = .error (.typeError (codes "Manifest must be a dict or array!"))) ∧
    (env (codes "VELOCITAS_APP_MANIFEST") = some raw → raw ≠ [] →
      ∀ e, jsonLoads raw = .error e → get_app_manifest env jsonLoads = .error e) ∧
    get_app_manifest (envOf (codes "m")) (loadsOf (codes "m") (.obj [(codes "a", .num 1)]))
      = .ok (.obj [(codes "a", .num 1)]) ∧
    get_app_manifest (envOf (codes "m"))
        (loadsOf (codes "m") (.arr [.obj [(codes "a", .num 1)], .obj [(codes "b", .num 2)]]))
      = .ok (.obj [(codes "a", .num 1)]) ∧
    get_app_manifest (envOf (codes "m")) (loadsOf (codes "m") (.str (codes "x")))
      = .error (.typeError (codes "Manifest must be a dict or array!")) := by
  refine ⟨?_, ?_, ?_, ?_, ?_, rfl, rfl, rfl⟩
  · intro henv hraw fields h
    rw [get_app_manifest_ok_loads env jsonLoads raw henv hraw, h]
  · intro henv hraw fields rest h
    rw [get_app_manifest_ok_loads env jsonLoads raw henv hraw, h]
  · intro henv hraw h
    rw [get_app_manifest_ok_loads env jsonLoads raw henv hraw, h]
  · intro henv hraw v h hshape
    rw [get_app_manifest_ok_loads env jsonLoads raw henv hraw, h]
    cases v with
    | obj fields => simp [manifestTypeErrorShape] at hshape
    | arr elems =>
      cases elems with
      | nil => simp [manifestTypeErrorShape] at hshape
      | cons x xs =>
        cases x with
        | obj f => simp [manifestTypeErrorShape] at hshape
        | arr a => rfl
        | str t => rfl
        | num n => rfl
        | boolean b => rfl
        | null => rfl
    | str t => rfl
    | num n => rfl
    | boolean b => rfl
    | null => rfl
  · intro henv hraw e h
    rw [get_app_manifest_ok_loads env jsonLoads raw henv hraw, h]

/-- Claim C1, counterexample: with the manifest variable decoding to the
empty JSON array, get_app_manifest fails with IndexError (list index out of
range), which is not the TypeError the claim names. -/
theorem get_app_manifest_empty_array_cex :
    get_app_manifest (envOf (codes "[]")) (loadsOf (codes "[]") (.arr []))
      = .error (.indexError (codes "list index out of range")) ∧
    PyErr.indexError (codes "list index out of range")
      ≠ PyErr.typeError (codes "Manifest must be a dict or array!") :=
  ⟨rfl, fun h => PyErr.noConfusion h⟩

theorem joinList_iterContent : ∀ (n : Nat) (body : PyStr), body.length ≤ n →
    joinList (iterContent body) = body := by
  intro n
  induction n with
  | zero =>
    intro body hb
    have hnil : body = [] := List.length_eq_zero.mp (Nat.le_zero.mp hb)
    subst hnil
    rw [iterContent]
    simp [joinList]
  | succ n ih =>
    intro body hb
    rw [iterContent]
    by_cases h : body = []
    · simp [h, joinList]
    · rw [if_neg h, joinList_cons]
      rw [ih (body.drop 8192) (by
        have hpos : body.length ≠ 0 := fun e => h (List.length_eq_zero.mp e)
        simp only [List.length_drop]
        omega)]
      exact List.take_append_drop 8192 body

/-- Claim C10, amended as the counterexample forces: for a local path whose
directory part is non-empty, download_file on a successful response writes a
file whose byte content is exactly the concatenation of the streamed
8192-byte chunks of the response body, that is, the body itself; a local
path with no directory part makes os.makedirs fail before anything is
written. -/
theorem download_file_contract (body localPath : PyStr) :
    ((pathSplit localPath).1 ≠ [] → download_file body localPath = .ok body) ∧
    download_file (codes "abc") (codes "data/file.bin") = .ok (codes "abc") ∧
    (pathSplit (codes "data/file.bin")).1 = codes "data" := by
  have hgen : ∀ (b p : PyStr), (pathSplit p).1 ≠ [] → download_file b p = .ok b := by
    intro b p h
    simp only [download_file, if_neg h]
    rw [foldl_append_eq_join, List.nil_append, joinList_iterContent b.length b le_rfl]
  exact ⟨hgen body localPath, hgen _ _ (by decide), by decide⟩

/-- Claim C10, counterexample: for the bare file name file.bin the directory
part of the local path is empty, os.makedirs of the empty string raises
FileNotFoundError, and download_file fails instead of writing the file. -/
theorem download_file_bare_filename_cex :
    download_file (codes "abc") (codes "file.bin")
      = .error (.fileNotFoundError (codes "")) ∧
    (pathSplit (codes "file.bin")).1 = codes "" :=
  ⟨rfl, by decide⟩

theorem pyReplaceAux_skip (f r : PyStr) :
    ∀ (cs : PyStr) (k : Nat), pyReplaceAux f r cs k = pyReplaceAux f r (cs.drop k) 0 := by
  intro cs
  induction cs with
  | nil => intro k; simp [pyReplaceAux]
  | cons c cs ih =>
    intro k
    cases k with
    | zero => rfl
    | succ k =>
      rw [List.drop_succ_cons]
      exact ih k

theorem pyReplaceGo_nil (f r : PyStr) : pyReplaceGo f r [] = [] := rfl

theorem pyReplaceGo_cons_match (f r : PyStr) (c : Nat) (cs : PyStr)
    (h1 : f ≠ []) (h2 : f.isPrefixOf (c :: cs) = true) :
    pyReplaceGo f r (c :: cs) = r ++ pyReplaceGo f r (cs.drop (f.length - 1)) := by
  rw [pyReplaceGo, pyReplaceAux, if_pos ⟨h1, h2⟩, pyReplaceAux_skip]
  rfl

theorem pyReplaceGo_cons_nomatch (f r : PyStr) (c : Nat) (cs : PyStr)
    (h : ¬(f ≠ [] ∧ f.isPrefixOf (c :: cs) = true)) :
    pyReplaceGo f r (c :: cs) = c :: pyReplaceGo f r cs := by
  rw [pyReplaceGo, pyReplaceAux, if_neg h]
  rfl

theorem isPrefixOf_length_le (nd l : PyStr) (h : nd.isPrefixOf l = true) :
    nd.length ≤ l.length := by
  rcases (isPrefixOf_eq_true_iff nd l).mp h with ⟨t, rfl⟩
  simp

theorem isPrefixOf_append_ten (f : PyStr) (h10 : (10 : Nat) ∉ f) :
    ∀ (l rest : PyStr), f.isPrefixOf (l ++ 10 :: rest) = f.isPrefixOf l := by
  induction f with
  | nil => intro l rest; simp [List.isPrefixOf]
  | cons a f ih =>
    intro l rest
    have ha : a ≠ 10 := fun e => h10 (by simp [e])
    cases l with
    | nil => simp [List.isPrefixOf, ha]
    | cons b l =>
      rw [List.cons_append]
      simp only [List.isPrefixOf]
      rw [ih (fun m => h10 (List.mem_cons_of_mem _ m)) l rest]

theorem not_isPrefixOf_ten_cons (f : PyStr) (h10 : (10 : Nat) ∉ f) (hne : f ≠ [])
    (rest : PyStr) : f.isPrefixOf (10 :: rest) = false := by
  cases f with
  | nil => exact absurd rfl hne
  | cons a f =>
    have ha : a ≠ 10 := fun e => h10 (by simp [e])
    simp [List.isPrefixOf, ha]

theorem pyReplaceGo_ten_head (f r : PyStr) (h10 : (10 : Nat) ∉ f) (hne : f ≠ [])
    (rest : PyStr) : pyReplaceGo f r (10 :: rest) = 10 :: pyReplaceGo f r rest := by
  refine pyReplaceGo_cons_nomatch f r 10 rest ?_
  rintro ⟨-, hp⟩
  rw [not_isPrefixOf_ten_cons f h10 hne rest] at hp
  exact Bool.noConfusion hp

theorem pyReplaceGo_append_ten (f r : PyStr) (h10 : (10 : Nat) ∉ f) (hne : f ≠ []) :
    ∀ (n : Nat) (l rest : PyStr), l.length ≤ n →
      pyReplaceGo f r (l ++ 10 :: rest)
        = pyReplaceGo f r (l ++ [10]) ++ pyReplaceGo f r rest := by
  intro n
  induction n with
  | zero =>
    intro l rest hl
    have : l = [] := List.length_eq_zero.mp (Nat.le_zero.mp hl)
    subst this
    rw [List.nil_append, List.nil_append, pyReplaceGo_ten_head f r h10 hne,
      pyReplaceGo_ten_head f r h10 hne, pyReplaceGo_nil, List.cons_append, List.nil_append]
  | succ n ih =>
    intro l rest hl
    cases l with
    | nil =>
      rw [List.nil_append, List.nil_append, pyReplaceGo_ten_head f r h10 hne,
        pyReplaceGo_ten_head f r h10 hne, pyReplaceGo_nil, List.cons_append, List.nil_append]
    | cons c l =>
      have hl' : l.length ≤ n := by
        simp only [List.length_cons] at hl
        omega
      show pyReplaceGo f r (c :: (l ++ 10 :: rest))
        = pyReplaceGo f r (c :: (l ++ [10])) ++ pyReplaceGo f r rest
      by_cases hm : f.isPrefixOf (c :: (l ++ 10 :: rest)) = true
      · have hml : f.isPrefixOf (c :: l) = true :=
          (isPrefixOf_append_ten f h10 (c :: l) rest).symm.trans hm
        have hm2 : f.isPrefixOf (c :: (l ++ [10])) = true :=
          (isPrefixOf_append_ten f h10 (c :: l) []).trans hml
        have hlen : f.length - 1 ≤ l.length := by
          have := isPrefixOf_length_le f (c :: l) hml
          simp only [List.length_cons] at this
          omega
        rw [pyReplaceGo_cons_match f r c (l ++ 10 :: rest) hne hm]
        rw [pyReplaceGo_cons_match f r c (l ++ [10]) hne hm2]
        rw [List.drop_append_of_le_length hlen, List.drop_append_of_le_length hlen]
        rw [ih (l.drop (f.length - 1)) rest (by simp only [List.length_drop]; omega)]
        rw [List.append_assoc]
      · have hm2 : ¬(f.isPrefixOf (c :: (l ++ [10])) = true) := by
          intro hp
        -- transport hp back to the 10 :: rest form and contradict hm
          have hB : f.isPrefixOf (c :: l) = true :=
            (isPrefixOf_append_ten f h10 (c :: l) []).symm.trans hp
          exact hm ((isPrefixOf_append_ten f h10 (c :: l) rest).trans hB)
        rw [pyReplaceGo_cons_nomatch f r c (l ++ 10 :: rest) (fun hc => hm hc.2)]
        rw [pyReplaceGo_cons_nomatch f r c (l ++ [10]) (fun hc => hm2 hc.2)]
        rw [ih l rest hl']
        rfl

theorem splitLinesKeepEnds_no_nl (s : PyStr) (h : (10 : Nat) ∉ s) (hne : s ≠ []) :
    splitLinesKeepEnds s = [s] := by
  induction s with
  | nil => exact absurd rfl hne
  | cons c cs ih =>
    have hc : ¬(c = 10) := fun e => h (by simp [e])
    rw [splitLinesKeepEnds, if_neg hc]
    by_cases hcs : cs = []
    · subst hcs
      rfl
    · rw [ih (fun m => h (List.mem_cons_of_mem _ m)) hcs]

theorem splitLinesKeepEnds_append_nl (l rest : PyStr) (h : (10 : Nat) ∉ l) :
    splitLinesKeepEnds (l ++ 10 :: rest) = (l ++ [10]) :: splitLinesKeepEnds rest := by
  induction l with
  | nil => simp [splitLinesKeepEnds]
  | cons c l ih =>
    have hc : ¬(c = 10) := fun e => h (by simp [e])
    rw [List.cons_append, splitLinesKeepEnds, if_neg hc]
    rw [ih (fun m => h (List.mem_cons_of_mem _ m))]
    simp

theorem exists_first_mem (a : Nat) :
    ∀ (s : PyStr), a ∈ s → ∃ l rest, s = l ++ a :: rest ∧ a ∉ l := by
  intro s
  induction s with
  | nil => intro h; simp at h
  | cons c cs ih =>
    intro h
    by_cases hc : c = a
    · exact ⟨[], cs, by simp [hc], by simp⟩
    · have hmem : a ∈ cs := by
        rcases List.mem_cons.mp h with e | m
        · exact absurd e.symm hc
        · exact m
      rcases ih hmem with ⟨l, rest, heq, hnl⟩
      refine ⟨c :: l, rest, by simp [heq], ?_⟩
      intro hm
      rcases List.mem_cons.mp hm with e | m
      · exact hc e.symm
      · exact hnl m

theorem pyReplace_eq_go (t r : PyStr) (hne : t ≠ []) : pyReplace t r = pyReplaceGo t r := by
  funext s
  rw [pyReplace, if_neg hne]

theorem perLine_eq_global (f r : PyStr) (h10 : (10 : Nat) ∉ f) (hne : f ≠ []) :
    ∀ (n : Nat) (s : PyStr), s.length ≤ n →
      joinList ((splitLinesKeepEnds s).map (pyReplaceGo f r)) = pyReplaceGo f r s := by
  intro n
  induction n with
  | zero =>
    intro s hs
    have : s = [] := List.length_eq_zero.mp (Nat.le_zero.mp hs)
    subst this
    rfl
  | succ n ih =>
    intro s hs
    by_cases hmem : (10 : Nat) ∈ s
    · rcases exists_first_mem 10 s hmem with ⟨l, rest, rfl, hnl⟩
      rw [splitLinesKeepEnds_append_nl l rest hnl, List.map_cons, joinList_cons]
      rw [ih rest (by simp only [List.length_append, List.length_cons] at hs; omega)]
      rw [pyReplaceGo_append_ten f r h10 hne l.length l rest le_rfl]
    · by_cases hnil : s = []
      · subst hnil
        rfl
      · rw [splitLinesKeepEnds_no_nl s hmem hnil]
        simp [joinList]

/-- Claim C9: after replace_in_file the file content is the original content
with every literal occurrence of the text replaced within each individual
line (the per-line map over the file's lines, concatenated back in order);
for a non-empty text containing no newline this per-line pass coincides with
a global replace over the whole content, and an occurrence spanning a line
boundary is left untouched, as the concrete example with find b-newline-c
shows. The rewrite is modelled on the full content; mid-write I/O failure
and atomicity are outside the functional model. -/
theorem replace_in_file_contract (text replacement content : PyStr) :
    replace_in_file text replacement content
      = joinList ((splitLinesKeepEnds content).map (pyReplace text replacement)) ∧
    ((10 : Nat) ∉ text → text ≠ [] →
      replace_in_file text replacement content = pyReplace text replacement content) ∧
    replace_in_file (codes "b\nc") (codes "X") (codes "ab\ncd") = codes "ab\ncd" ∧
    replace_in_file (codes "b") (codes "X") (codes "ab\ncb") = codes "aX\ncX" := by
  refine ⟨?_, ?_, by decide, by decide⟩
  · simp only [replace_in_file]
    rw [foldl_append_eq_join, List.nil_append]
  · intro h10 hne
    simp only [replace_in_file]
    rw [foldl_append_eq_join, List.nil_append, pyReplace_eq_go text replacement hne,
      perLine_eq_global text replacement h10 hne content.length content le_rfl]

end Velocitas
